import Mathlib

/-!
# Verification of the BBOXAI/Images image-transformation proxy

Shallow embedding of the core of `main.go`: the pixel-level transform codec
(`detectImageFormat`, `resizeImage`, `scaleImage`, `cropImage`,
`generateThumbnail`), the cache-key derivation of `handleImageProxy`, the
transform/output stage of `handleImageProxy`, the in-memory `LRUCache`
(`Put`, `Get`, `evictTail`), the database reconciliation `syncToDB`, and
`MemoryStorage`.

Conventions used throughout:
* Go `int` / `int64` are embedded as `Int`; overflow never matters at the
  values the program handles, and Go guarantees at least 64 bits here.
* Go `float64` arithmetic is embedded exactly over `ℚ`; the conversion
  `int(x)` (truncation toward zero) is `goTrunc`.
* Byte slices are `List Nat` (each element a byte value).
* External collaborators (the stdlib image codecs, sha1/md5 hashing, the
  SQLite driver, the filesystem) are not part of the repository source;
  they are modelled as explicit oracle parameters (`Codec`, failure flags,
  event traces), which is the standard shallow embedding of effectful
  library calls.
-/

/-- Truncation toward zero, the semantics of Go's `int(x)` conversion from
`float64`, embedded on `ℚ`. -/
def goTrunc (q : ℚ) : Int :=
  if q < 0 then -(Int.floor (-q)) else Int.floor q

/-- Go integer division `/` rounds toward zero; Lean's `Int.div` has the
same semantics. -/
def goDiv (a b : Int) : Int := Int.tdiv a b

/-- A colour value as observed through Go's `color.Color.RGBA()` method:
four 16-bit channel values (alpha-premultiplied).  `color.RGBA{r,g,b,a}`
reports each 8-bit channel `c` as `c * 0x101`. -/
structure Pixel where
  r : Int
  g : Int
  b : Int
  a : Int
deriving DecidableEq

/-- The zero `color.RGBA{}` value, returned by `At` outside an image's
bounds. -/
def Pixel.zero : Pixel := ⟨0, 0, 0, 0⟩

/-- The colour stored by `image.RGBA.Set` for `color.RGBA{r,g,b,a}`
(8-bit channels), as observed through `RGBA()`. -/
def mkRGBA8 (r g b a : Int) : Pixel :=
  ⟨r * 257, g * 257, b * 257, a * 257⟩

/-- `color.RGBA{255, 255, 255, 255}` — opaque white, the padding colour of
`resizeImage`'s `pad` mode. -/
def whitePixel : Pixel := mkRGBA8 255 255 255 255

/-- A Go `image.Image` restricted to what the program observes: a bounds
rectangle `Rect(0, 0, width, height)` and the pixel data inside it.  All
images the transform pipeline builds (`image.NewRGBA`) have their origin
at `(0, 0)`. -/
structure GoImage where
  width : Int
  height : Int
  px : Int → Int → Pixel

/-- `img.At x y`: the stored pixel inside the bounds rectangle, the zero
colour outside it (the behaviour of `image.RGBA.At`). -/
def GoImage.At (img : GoImage) (x y : Int) : Pixel :=
  if 0 ≤ x ∧ x < img.width ∧ 0 ≤ y ∧ y < img.height then img.px x y else Pixel.zero

/-- `detectImageFormat` (main.go:2648): sniff the magic bytes, returning
`"webp"`, `"png"`, `"jpeg"`, `"gif"` or `""`. -/
def detectImageFormat (data : List Nat) : String :=
  if data.length < 12 then ""
  else if [82, 73, 70, 70].isPrefixOf data ∧ [87, 69, 66, 80] <:+: data.take 12 then "webp"
  else if [0x89, 0x50, 0x4E, 0x47, 0x0D, 0x0A, 0x1A, 0x0A].isPrefixOf data then "png"
  else if [0xFF, 0xD8, 0xFF].isPrefixOf data then "jpeg"
  else if [71, 73, 70, 56, 55, 97].isPrefixOf data ∨ [71, 73, 70, 56, 57, 97].isPrefixOf data then "gif"
  else ""

/-- One channel of the bilinear interpolation of `scaleImage`
(main.go:3716-3723): the weighted sum is computed in `float64`
(here: exactly, in `ℚ`), truncated by the `uint32(...)` conversion, then
narrowed by `uint8(r >> 8)`. -/
def bilinearChan (fx fy : ℚ) (c00 c10 c01 c11 : Int) : Int :=
  let r := goTrunc ((1 - fx) * (1 - fy) * (c00 : ℚ) + fx * (1 - fy) * (c10 : ℚ)
    + (1 - fx) * fy * (c01 : ℚ) + fx * fy * (c11 : ℚ))
  goDiv r 256 % 256

/-- `scaleImage` (main.go:3669): bilinear scaling onto a fresh
`image.NewRGBA(Rect(0, 0, newWidth, newHeight))`. -/
def scaleImage (img : GoImage) (newWidth newHeight : Int) : GoImage :=
  let origWidth := img.width
  let origHeight := img.height
  let scaleX : ℚ := (origWidth : ℚ) / (newWidth : ℚ)
  let scaleY : ℚ := (origHeight : ℚ) / (newHeight : ℚ)
  { width := newWidth, height := newHeight,
    px := fun x y =>
      let srcX : ℚ := (x : ℚ) * scaleX
      let srcY : ℚ := (y : ℚ) * scaleY
      let x0 := goTrunc srcX
      let y0 := goTrunc srcY
      let x1 := if x0 + 1 ≥ origWidth then origWidth - 1 else x0 + 1
      let y1 := if y0 + 1 ≥ origHeight then origHeight - 1 else y0 + 1
      let fx : ℚ := srcX - (x0 : ℚ)
      let fy : ℚ := srcY - (y0 : ℚ)
      let c00 := img.At x0 y0
      let c10 := img.At x1 y0
      let c01 := img.At x0 y1
      let c11 := img.At x1 y1
      mkRGBA8 (bilinearChan fx fy c00.r c10.r c01.r c11.r)
        (bilinearChan fx fy c00.g c10.g c01.g c11.g)
        (bilinearChan fx fy c00.b c10.b c01.b c11.b)
        (bilinearChan fx fy c00.a c10.a c01.a c11.a) }

/-- `cropImage` (main.go:3738): copy a `width × height` window starting at
`(x, y)` onto a fresh RGBA image; source coordinates that fall outside the
source bounds leave the zero-initialised pixel in place. -/
def cropImage (img : GoImage) (x y width height : Int) : GoImage :=
  { width := width, height := height,
    px := fun dx dy =>
      let srcX := x + dx
      let srcY := y + dy
      if 0 ≤ srcX ∧ 0 ≤ srcY ∧ srcX < img.width ∧ srcY < img.height then
        img.At srcX srcY
      else Pixel.zero }

/-- `generateThumbnail` (main.go:3761): nearest-neighbour downscale into a
`maxWidth × maxHeight` box; returns the image unchanged if it already
fits. -/
def generateThumbnail (img : GoImage) (maxWidth maxHeight : Int) : GoImage :=
  let origWidth := img.width
  let origHeight := img.height
  let scaleX : ℚ := (maxWidth : ℚ) / (origWidth : ℚ)
  let scaleY : ℚ := (maxHeight : ℚ) / (origHeight : ℚ)
  let scale := min scaleX scaleY
  if 1 ≤ scale then img
  else
    let newWidth := goTrunc ((origWidth : ℚ) * scale)
    let newHeight := goTrunc ((origHeight : ℚ) * scale)
    { width := newWidth, height := newHeight,
      px := fun x y =>
        let srcX0 := goTrunc ((x : ℚ) / scale)
        let srcY0 := goTrunc ((y : ℚ) / scale)
        let srcX := if srcX0 ≥ origWidth then origWidth - 1 else srcX0
        let srcY := if srcY0 ≥ origHeight then origHeight - 1 else srcY0
        img.At srcX srcY }

/-- `resizeImage` (main.go:3576): dispatch on the resize mode.
* `stretch`: scale to exactly the box;
* `fill`: scale by the larger ratio, then centre-crop to the box;
* `pad`: scale by the smaller ratio, then composite centred onto an opaque
  white canvas of exactly the box (the double loop writing
  `padded.Set(x+offsetX, y+offsetY, scaled.At(x, y))` is embedded as the
  pixel function that reads the scaled image inside the centred rectangle
  and white elsewhere; `Set` outside the canvas bounds is a no-op, which
  the bounds check of `GoImage.At` reproduces);
* anything else (`fit`, the default): scale by the smaller ratio. -/
def resizeImage (img : GoImage) (targetWidth0 targetHeight0 : Int) (mode : String) : GoImage :=
  let origWidth := img.width
  let origHeight := img.height
  if targetWidth0 = 0 ∧ targetHeight0 = 0 then img
  else
    let targetWidth :=
      if targetWidth0 = 0 then
        goTrunc ((origWidth : ℚ) * (targetHeight0 : ℚ) / (origHeight : ℚ))
      else targetWidth0
    let targetHeight :=
      if targetWidth0 = 0 then targetHeight0
      else if targetHeight0 = 0 then
        goTrunc ((origHeight : ℚ) * (targetWidth0 : ℚ) / (origWidth : ℚ))
      else targetHeight0
    if mode = "stretch" then
      scaleImage img targetWidth targetHeight
    else if mode = "fill" then
      let scaleX : ℚ := (targetWidth : ℚ) / (origWidth : ℚ)
      let scaleY : ℚ := (targetHeight : ℚ) / (origHeight : ℚ)
      let scale := max scaleX scaleY
      let scaledWidth := goTrunc ((origWidth : ℚ) * scale)
      let scaledHeight := goTrunc ((origHeight : ℚ) * scale)
      let scaled := scaleImage img scaledWidth scaledHeight
      let cropX := goDiv (scaledWidth - targetWidth) 2
      let cropY := goDiv (scaledHeight - targetHeight) 2
      cropImage scaled cropX cropY targetWidth targetHeight
    else if mode = "pad" then
      let scaleX : ℚ := (targetWidth : ℚ) / (origWidth : ℚ)
      let scaleY : ℚ := (targetHeight : ℚ) / (origHeight : ℚ)
      let scale := min scaleX scaleY
      let scaledWidth := goTrunc ((origWidth : ℚ) * scale)
      let scaledHeight := goTrunc ((origHeight : ℚ) * scale)
      let scaled := scaleImage img scaledWidth scaledHeight
      let offsetX := goDiv (targetWidth - scaledWidth) 2
      let offsetY := goDiv (targetHeight - scaledHeight) 2
      { width := targetWidth, height := targetHeight,
        px := fun u v =>
          if offsetX ≤ u ∧ u < offsetX + scaledWidth ∧ offsetY ≤ v ∧ v < offsetY + scaledHeight then
            scaled.At (u - offsetX) (v - offsetY)
          else whitePixel }
    else
      let scaleX : ℚ := (targetWidth : ℚ) / (origWidth : ℚ)
      let scaleY : ℚ := (targetHeight : ℚ) / (origHeight : ℚ)
      let scale := min scaleX scaleY
      let newWidth := goTrunc ((origWidth : ℚ) * scale)
      let newHeight := goTrunc ((origHeight : ℚ) * scale)
      scaleImage img newWidth newHeight

/-! ## The transform/output stage of `handleImageProxy` (main.go:3249-3380) -/

/-- An `http.Error` response: status code and client-facing message. -/
structure HttpErr where
  status : Int
  msg : String
deriving DecidableEq

/-- The external image codec libraries (`image.Decode`, `nativewebp.Encode`,
`gif.DecodeAll`, `gif.EncodeAll`).  They live outside this repository, so
they are modelled as an oracle of pure functions; `gif.DecodeAll`'s result
is its frame list (`gifImg.Image`). -/
structure Codec where
  decode : List Nat → Except String (GoImage × String)
  webpEncode : GoImage → Except String (List Nat)
  gifDecodeAll : List Nat → Except String (List GoImage)
  gifEncodeAll : List GoImage → Except String (List Nat)

/-- The proxy parameters as they stand after the validation block of
`handleImageProxy` (main.go:3116-3188): `forceWebP` / `forceOriginal` are
the two flags derived from the `format` parameter, `formatEmpty` records
`requestedFormat == ""`, dimensions are `0` when absent and `1..5000`
otherwise, `quality` defaults to `80`, `resizeMode` defaults to `"fit"`. -/
structure ProxyParams where
  forceWebP : Bool
  forceOriginal : Bool
  formatEmpty : Bool
  targetWidth : Int
  targetHeight : Int
  quality : Int
  resizeMode : String
deriving DecidableEq

/-- What `handleImageProxy` writes into `outputBuf`, with its provenance
kept so the served bytes' animation structure is observable:
* `raw` — `outputBuf.Write(rawImgData)`, a byte-for-byte passthrough;
* `webpImg` — `nativewebp.Encode` of a single raster;
* `gifAnim` — `gif.EncodeAll` of the full decoded frame list;
* `emptyBuf` — nothing written (only on a branch unreachable with valid
  parameters: `format == "gif" && needResize` with a nil raster). -/
inductive OutBytes where
  | raw : OutBytes
  | webpImg : GoImage → List Nat → OutBytes
  | gifAnim : List GoImage → List Nat → OutBytes
  | emptyBuf : OutBytes

/-- The successful outcome of the transform stage: the final `format`
variable, the output provenance, and the `img` variable (post-resize) as
it stands when the thumbnail is generated. -/
structure TransformResult where
  format : String
  out : OutBytes
  imgAfter : Option GoImage

/-- The bytes actually served for an `OutBytes` value, given the raw
upstream bytes. -/
def outBytesData (rawImgData : List Nat) : OutBytes → List Nat
  | .raw => rawImgData
  | .webpImg _ bs => bs
  | .gifAnim _ bs => bs
  | .emptyBuf => []

/-- Frame count of a source container: the length of `gif.DecodeAll`'s
frame list when it decodes, otherwise a single frame. -/
def srcFrameCount (codec : Codec) (rawImgData : List Nat) : Nat :=
  match codec.gifDecodeAll rawImgData with
  | .ok frames => frames.length
  | .error _ => 1

/-- Frame count of the served output. -/
def outFrameCount (codec : Codec) (rawImgData : List Nat) : OutBytes → Nat
  | .raw => srcFrameCount codec rawImgData
  | .webpImg _ _ => 1
  | .gifAnim frames _ => frames.length
  | .emptyBuf => 0

/-- The decode stage of `handleImageProxy` (main.go:3249-3274): WebP input
is passed through undecoded (`img = nil`) when the format request allows
it and rejected with a 415 otherwise; every other input goes through
`image.Decode`, whose failure is a 415.  Returns the `img` variable and
the (re-assigned) `detectedFormat` variable. -/
def decodeStage (codec : Codec) (rawImgData : List Nat) (p : ProxyParams) :
    Except HttpErr (Option GoImage × String) :=
  if detectImageFormat rawImgData = "webp" then
    if p.forceOriginal || p.forceWebP || p.formatEmpty then
      .ok (none, "webp")
    else
      .error ⟨415, "无法解码 WebP 格式的图片。请使用 format=original 或 format=webp 参数"⟩
  else
    match codec.decode rawImgData with
    | .error e => .error ⟨415, s!"图片解码失败: {e}"⟩
    | .ok (img, fmt) => .ok (some img, fmt)

/-- The transform/output stage of `handleImageProxy` (main.go:3249-3380):
decode, optional resize, then the output-format switch that fills
`outputBuf`. -/
def transform (codec : Codec) (rawImgData : List Nat) (p : ProxyParams) :
    Except HttpErr TransformResult :=
  match decodeStage codec rawImgData p with
  | .error e => .error e
  | .ok (img0, detectedFormat) =>
    let needResize := (p.targetWidth > 0 || p.targetHeight > 0) && img0.isSome
    let img := if needResize then
        img0.map (fun i => resizeImage i p.targetWidth p.targetHeight p.resizeMode)
      else img0
    if p.forceOriginal && !needResize then
      .ok ⟨detectedFormat, .raw, img⟩
    else if p.forceWebP then
      if detectedFormat == "webp" && !needResize then
        .ok ⟨"webp", .raw, img⟩
      else
        match img with
        | some i =>
          match codec.webpEncode i with
          | .error e => .error ⟨500, s!"WebP 编码失败: {e}"⟩
          | .ok bs => .ok ⟨"webp", .webpImg i bs, some i⟩
        | none => .ok ⟨"webp", .raw, none⟩
    else if p.forceOriginal then
      match img with
      | some i =>
        match codec.webpEncode i with
        | .error e => .error ⟨500, s!"WebP 编码失败: {e}"⟩
        | .ok bs => .ok ⟨"webp", .webpImg i bs, some i⟩
      | none => .error ⟨500, "无法缩放此格式的图片"⟩
    else
      if detectedFormat == "webp" && !needResize then
        .ok ⟨"webp", .raw, img⟩
      else if detectedFormat == "webp" && needResize then
        .error ⟨500, "无法缩放 WebP 格式的图片"⟩
      else if detectedFormat == "gif" then
        if needResize then
          match img with
          | some i =>
            match codec.webpEncode i with
            | .error e => .error ⟨500, s!"WebP 编码失败: {e}"⟩
            | .ok bs => .ok ⟨"webp", .webpImg i bs, some i⟩
          | none => .ok ⟨"webp", .emptyBuf, none⟩
        else
          match codec.gifDecodeAll rawImgData with
          | .error _ =>
            match img with
            | some i =>
              match codec.webpEncode i with
              | .error e => .error ⟨500, s!"WebP 编码失败: {e}"⟩
              | .ok bs => .ok ⟨"webp", .webpImg i bs, some i⟩
            | none => .ok ⟨"webp", .raw, none⟩
          | .ok frames =>
            if frames.length ≤ 1 then
              match img with
              | some i =>
                match codec.webpEncode i with
                | .error e => .error ⟨500, s!"WebP 编码失败: {e}"⟩
                | .ok bs => .ok ⟨"webp", .webpImg i bs, some i⟩
              | none => .ok ⟨"webp", .raw, none⟩
            else
              match codec.gifEncodeAll frames with
              | .error e => .error ⟨500, s!"GIF 编码失败: {e}"⟩
              | .ok bs => .ok ⟨"gif", .gifAnim frames bs, img⟩
      else
        match img with
        | some i =>
          match codec.webpEncode i with
          | .error e => .error ⟨500, s!"WebP 编码失败: {e}"⟩
          | .ok bs => .ok ⟨"webp", .webpImg i bs, some i⟩
        | none => .ok ⟨"webp", .raw, none⟩

/-! ## Cache-key derivation (main.go:3116-3216)

The query parameters are modelled as the strings returned by
`r.URL.Query().Get(...)` (`""` when absent). -/

/-- `strconv.Atoi`: an optional sign followed by at least one decimal
digit; anything else is an error (`none`). -/
def goAtoi (s : String) : Option Int :=
  let digitsVal (ds : List Char) : Int :=
    ds.foldl (fun acc c => acc * 10 + ((c.toNat : Int) - 48)) 0
  let allDigits (ds : List Char) : Bool :=
    !ds.isEmpty && ds.all (fun c => '0' ≤ c ∧ c ≤ '9')
  match s.data with
  | '-' :: ds => if allDigits ds then some (-(digitsVal ds)) else none
  | '+' :: ds => if allDigits ds then some (digitsVal ds) else none
  | ds => if allDigits ds then some (digitsVal ds) else none

/-- `strings.ToLower` on ASCII input. -/
def goToLower (s : String) : String :=
  String.mk (s.data.map Char.toLower)

/-- The `format` parameter block (main.go:3116-3136): returns the pair
`(forceWebP, forceOriginal)` or the 400 error. -/
def parseFormatParam (s : String) : Except HttpErr (Bool × Bool) :=
  if s = "" then .ok (false, false)
  else
    match goToLower s with
    | "webp" => .ok (true, false)
    | "original" => .ok (false, true)
    | "png" => .ok (false, true)
    | "jpeg" => .ok (false, true)
    | "jpg" => .ok (false, true)
    | "gif" => .ok (false, true)
    | _ => .error ⟨400, "不支持的格式。支持的格式: webp, original"⟩

/-- The `w` / `h` parameter blocks (main.go:3148-3164): `0` when absent,
`1..5000` when present and valid, otherwise a 400 error. -/
def parseDimParam (s : String) (errMsg : String) : Except HttpErr Int :=
  if s = "" then .ok 0
  else
    match goAtoi s with
    | some n => if 0 < n ∧ n ≤ 5000 then .ok n else .error ⟨400, errMsg⟩
    | none => .error ⟨400, errMsg⟩

/-- The `q` parameter block (main.go:3166-3173): default 80. -/
def parseQualityParam (s : String) : Except HttpErr Int :=
  if s = "" then .ok 80
  else
    match goAtoi s with
    | some n => if 1 ≤ n ∧ n ≤ 100 then .ok n else .error ⟨400, "质量参数无效，必须是 1-100 之间的整数"⟩
    | none => .error ⟨400, "质量参数无效，必须是 1-100 之间的整数"⟩

/-- The `mode` parameter block (main.go:3175-3188): default `"fit"`. -/
def parseModeParam (s : String) : Except HttpErr String :=
  if s = "" then .ok "fit"
  else if s = "fit" ∨ s = "fill" ∨ s = "stretch" ∨ s = "pad" then .ok s
  else .error ⟨400, "模式参数无效。支持的模式: fit, fill, stretch, pad"⟩

/-- The cache-key suffix parameter list built at main.go:3193-3212, in the
order the source appends: `format`, `w`, `h`, `q` (only if ≠ 80), `mode`
(only if ≠ "fit" and some dimension was requested). -/
def cacheKeyParams (forceWebP forceOriginal : Bool) (targetWidth targetHeight quality : Int)
    (resizeMode : String) : List String :=
  (if forceWebP then ["format=webp"]
   else if forceOriginal then ["format=original"] else [])
  ++ (if targetWidth > 0 then [s!"w={targetWidth}"] else [])
  ++ (if targetHeight > 0 then [s!"h={targetHeight}"] else [])
  ++ (if quality ≠ 80 then [s!"q={quality}"] else [])
  ++ (if resizeMode ≠ "fit" ∧ (targetWidth > 0 ∨ targetHeight > 0) then [s!"mode={resizeMode}"] else [])

/-- Cache-key derivation, main.go:3116-3216: validate the parameters, then
`cacheKey` is `cleanImageURL` when no non-default parameter is present and
`imageURL + "?" + strings.Join(params, "&")` otherwise. -/
def deriveCacheKey (imageURL cleanImageURL : String)
    (formatStr wStr hStr qStr modeStr : String) : Except HttpErr String :=
  match parseFormatParam formatStr with
  | .error e => .error e
  | .ok (forceWebP, forceOriginal) =>
    match parseDimParam wStr "宽度参数无效，必须是 1-5000 之间的整数" with
    | .error e => .error e
    | .ok targetWidth =>
      match parseDimParam hStr "高度参数无效，必须是 1-5000 之间的整数" with
      | .error e => .error e
      | .ok targetHeight =>
        match parseQualityParam qStr with
        | .error e => .error e
        | .ok quality =>
          match parseModeParam modeStr with
          | .error e => .error e
          | .ok resizeMode =>
            let params := cacheKeyParams forceWebP forceOriginal targetWidth targetHeight quality resizeMode
            .ok (if params = [] then cleanImageURL
                 else imageURL ++ "?" ++ String.intercalate "&" params)

/-! ## The in-memory `LRUCache` (main.go:1138-1161, 6632-6776, 5732)

The hash map and the intrusive doubly-linked list share the same
`*CacheEntry` nodes and the map key is always the entry's URL at every
call site (`lruCache.Put(entry.URL, &entry)` at main.go:2001,
`lruCache.Put(url, entry)` with `entry.URL = url` at main.go:2706), so
both structures are embedded together as a single list of entries in
recency order — head = most recently used, last = least recently used.
Timestamps (`time.Now()`) are supplied as an explicit `now : Nat`.
Filesystem and database side effects are recorded as an event trace. -/

/-- A `CacheEntry` (main.go:1138), minus the intrusive `prev`/`next`
pointers, which the recency list represents. -/
structure CacheEntry where
  url : String
  filePath : String
  thumbPath : String
  format : String
  accessCount : Int
  lastAccess : Nat
  createdAt : Nat
  dirty : Bool
  size : Int
deriving DecidableEq

/-- An observable side effect of a cache operation: a flush of an entry's
metadata to the durable index, or an `os.Remove` of a backing file. -/
inductive CacheEvent where
  | flushToDB : String → CacheEvent
  | deleteFile : String → CacheEvent
deriving DecidableEq

/-- `LRUCache` (main.go:1153): `entries` is the map and the recency list
in one; `currentSize` is the tracked byte total. -/
structure LRUCache where
  entries : List CacheEntry
  maxEntries : Int
  maxSizeMB : Int
  currentSize : Int
deriving DecidableEq

/-- `NewLRUCache` (main.go:5732). -/
def NewLRUCache (maxEntries maxSizeMB : Int) : LRUCache :=
  ⟨[], maxEntries, maxSizeMB, 0⟩

/-- `LRUCache.evictTail` (main.go:6718): drop the least-recently-used
entry, subtract its size, and delete its backing files (`os.Remove`,
recorded as `deleteFile` events).  No flush of any kind is performed. -/
def LRUCache.evictTail (c : LRUCache) : LRUCache × List CacheEvent :=
  match c.entries.getLast? with
  | none => (c, [])
  | some toEvict =>
    ({ c with entries := c.entries.dropLast,
              currentSize := c.currentSize - toEvict.size },
     (if toEvict.filePath ≠ "" then [CacheEvent.deleteFile toEvict.filePath] else [])
       ++ (if toEvict.thumbPath ≠ "" then [CacheEvent.deleteFile toEvict.thumbPath] else []))

/-- The loop condition of `LRUCache.Put`'s eviction loop
(main.go:6676): entry count over `maxEntries`, or byte total over
`maxSizeMB` megabytes, and the list is nonempty (`c.tail != nil`). -/
def evictCond (c : LRUCache) : Prop :=
  ((c.maxEntries < (c.entries.length : Int)) ∨
    ((c.maxSizeMB : Int) * 1024 * 1024 < c.currentSize)) ∧ c.entries ≠ []

instance (c : LRUCache) : Decidable (evictCond c) := by
  unfold evictCond; infer_instance

/-- The eviction loop of `LRUCache.Put` (main.go:6676-6678), written with
an explicit fuel for structural recursion.  Each iteration removes one
entry, so `c.entries.length` fuel is always enough: the `0` case can only
be reached with an empty list, where the loop condition is false anyway —
`evictLoopF` with this fuel is exactly the Go `for` loop. -/
def evictLoopF : Nat → LRUCache → LRUCache × List CacheEvent
  | 0, c => (c, [])
  | fuel + 1, c =>
    if evictCond c then
      let p := c.evictTail
      let q := evictLoopF fuel p.1
      (q.1, p.2 ++ q.2)
    else (c, [])

/-- The eviction loop of `LRUCache.Put`, fuelled with the entry count. -/
def evictLoop (c : LRUCache) : LRUCache × List CacheEvent :=
  evictLoopF c.entries.length c

/-- `LRUCache.Put` (main.go:6652): update-in-place and move to head when
the key exists (with no eviction check); otherwise insert at head, add the
size, and run the eviction loop. -/
def LRUCache.Put (c : LRUCache) (key : String) (entry : CacheEntry) (now : Nat) :
    LRUCache × List CacheEvent :=
  match c.entries.find? (fun x => x.url == key) with
  | some existing =>
    let updated := { existing with
      filePath := entry.filePath, thumbPath := entry.thumbPath,
      format := entry.format, size := entry.size,
      lastAccess := now, dirty := true }
    ({ c with currentSize := c.currentSize - existing.size + entry.size,
              entries := updated :: c.entries.eraseP (fun x => x.url == key) }, [])
  | none =>
    evictLoop { c with entries := entry :: c.entries,
                       currentSize := c.currentSize + entry.size }

/-- `LRUCache.Get` (main.go:6633): a mutating read — on a hit the entry
moves to the head, its access count is bumped, `lastAccess` is refreshed
and it is marked dirty. -/
def LRUCache.Get (c : LRUCache) (key : String) (now : Nat) :
    Option CacheEntry × LRUCache :=
  match c.entries.find? (fun x => x.url == key) with
  | none => (none, c)
  | some entry =>
    let updated := { entry with accessCount := entry.accessCount + 1,
                                lastAccess := now, dirty := true }
    (some updated, { c with entries := updated :: c.entries.eraseP (fun x => x.url == key) })

/-- Insert a list of entries in order via `Put`, keyed by their URL (the
call-site convention), discarding the event traces. -/
def putList (c : LRUCache) (es : List CacheEntry) (now : Nat) : LRUCache :=
  es.foldl (fun acc e => (acc.Put e.url e now).1) c

/-! ## Database reconciliation: `syncToDB` (main.go:2025-2085)

The SQLite driver is external; its transactional behaviour is modelled by
a failure oracle (`Begin`, each `tx.Exec`, `Commit`) and the durable index
as a list of rows keyed by URL.  `INSERT OR REPLACE` persists exactly the
columns `(url, file_path, thumb_path, format, access_count, last_access,
created_at)`. -/

/-- A row of the `cache` table. -/
structure DBRow where
  url : String
  filePath : String
  thumbPath : String
  format : String
  accessCount : Int
  lastAccess : Nat
  createdAt : Nat
deriving DecidableEq

/-- The row written for a cache entry. -/
def rowOfEntry (e : CacheEntry) : DBRow :=
  ⟨e.url, e.filePath, e.thumbPath, e.format, e.accessCount, e.lastAccess, e.createdAt⟩

/-- `INSERT OR REPLACE INTO cache ...` keyed by `url`. -/
def upsertRow (db : List DBRow) (row : DBRow) : List DBRow :=
  if db.any (fun r => r.url == row.url) then
    db.map (fun r => if r.url == row.url then row else r)
  else db ++ [row]

/-- Failure oracle for one `syncToDB` run: whether `db.Begin` fails,
whether the `i`-th `tx.Exec` fails, whether `tx.Commit` fails. -/
structure SyncOracle where
  beginFails : Bool
  execFails : Nat → Bool
  commitFails : Bool

/-- One iteration of the dirty-clearing loop at main.go:2077-2081:
`lruCache.Get(entry.URL)` (the mutating `Get`), then
`cached.Dirty = false` on the returned entry (the unique resident node
with that URL). -/
def clearStep (c : LRUCache) (u : String) (now : Nat) : LRUCache :=
  match c.Get u now with
  | (none, c2) => c2
  | (some _, c2) =>
    { c2 with entries := c2.entries.map (fun e =>
        if e.url == u then { e with dirty := false } else e) }

/-- The dirty-clearing loop at main.go:2077-2081. -/
def clearSynced (c : LRUCache) (urls : List String) (now : Nat) : LRUCache :=
  urls.foldl (fun acc u => clearStep acc u now) c

/-- `syncToDB` (main.go:2025): snapshot the cache, collect the dirty
entries (as copies), write them in one transaction, and clear their dirty
flags only after a successful commit; any failure returns with the cache
and database untouched. -/
def syncToDB (o : SyncOracle) (c : LRUCache) (db : List DBRow) (now : Nat) :
    LRUCache × List DBRow :=
  let toSync := c.entries.filter (fun e => e.dirty)
  if toSync.isEmpty then (c, db)
  else if o.beginFails then (c, db)
  else if (List.range toSync.length).any o.execFails then (c, db)
  else if o.commitFails then (c, db)
  else (clearSynced c (toSync.map (fun e => e.url)) now,
        toSync.foldl (fun acc e => upsertRow acc (rowOfEntry e)) db)

/-! ## `MemoryStorage` (main.go:5254-5332)

The `data` map is embedded as an association list; Go's randomized map
iteration order in the eviction loop is resolved to "the first element",
one of the orders Go may produce (the claim-relevant behaviour is
independent of the choice).  SHA-1 content hashing is external and is
passed in as a hashing oracle. -/

/-- `MemoryStorage` (main.go:1410): stored blobs plus the tracked byte
total `currSize` and the budget `maxSize`. -/
structure MemoryStorage where
  data : List (String × List Nat)
  currSize : Int
  maxSize : Int
deriving DecidableEq

/-- Total bytes actually held in the `data` map. -/
def MemoryStorage.realSize (m : MemoryStorage) : Int :=
  (m.data.map (fun kv => (kv.2.length : Int))).sum

/-- The tracked-size invariant: `currSize` equals the sum of the lengths
of all held byte slices. -/
def MemoryStorage.sizeInvariant (m : MemoryStorage) : Prop :=
  m.currSize = m.realSize

instance (m : MemoryStorage) : Decidable m.sizeInvariant := by
  unfold MemoryStorage.sizeInvariant; infer_instance

/-- `delete(m.data, oldID)`. -/
def eraseEntry (data : List (String × List Nat)) (id : String) : List (String × List Nat) :=
  data.filter (fun kv => kv.1 ≠ id)

/-- `m.data[oldID]` — map lookup with the zero value (`nil`, length 0) for
a missing key. -/
def lookupBytes (data : List (String × List Nat)) (id : String) : List Nat :=
  match data.find? (fun kv => kv.1 == id) with
  | some kv => kv.2
  | none => []

/-- One pass of the eviction loop body of `MemoryStorage.Store`
(main.go:5285-5289), exactly as written: the entry is deleted from the map
FIRST, and only then is `len(m.data[oldID])` — by then the zero value —
subtracted from `currSize`. -/
def MemoryStorage.evictOne (m : MemoryStorage) : MemoryStorage :=
  match m.data with
  | [] => m
  | (oldID, _) :: _ =>
    let data2 := eraseEntry m.data oldID
    { m with data := data2,
             currSize := m.currSize - (lookupBytes data2 oldID).length }

/-- The eviction loop of `MemoryStorage.Store` (main.go:5283): evict while
the new blob would push `currSize` past `maxSize` and entries remain.
Fuelled for structural recursion; every iteration removes at least one map
entry, so `m.data.length` fuel makes this exactly the Go `for` loop (the
`0` case is only reachable with an empty map, where the loop stops
anyway). -/
def storeEvictLoopF (incoming : Int) : Nat → MemoryStorage → MemoryStorage
  | 0, m => m
  | fuel + 1, m =>
    if m.maxSize < m.currSize + incoming ∧ m.data ≠ [] then
      storeEvictLoopF incoming fuel m.evictOne
    else m

/-- The eviction loop of `MemoryStorage.Store`, fuelled with the map
size. -/
def storeEvictLoop (incoming : Int) (m : MemoryStorage) : MemoryStorage :=
  storeEvictLoopF incoming m.data.length m

/-- `MemoryStorage.Store` (main.go:5262): pick the custom id from the
metadata or the SHA-1 content hash (external, supplied as `hashId`),
reject blobs larger than the whole budget, evict until the blob fits, then
insert it (a Go map assignment: replace or add) and add its length. -/
def MemoryStorage.Store (m : MemoryStorage) (hashId : List Nat → String)
    (bytes : List Nat) (customId : Option String) :
    Except String (String × MemoryStorage) :=
  let id := match customId with
    | some cid => if cid ≠ "" then cid else hashId bytes
    | none => hashId bytes
  if m.maxSize < (bytes.length : Int) then .error "文件大小超过内存限制"
  else
    let m2 := storeEvictLoop (bytes.length : Int) m
    let data3 :=
      if m2.data.any (fun kv => kv.1 == id) then
        m2.data.map (fun kv => if kv.1 == id then (id, bytes) else kv)
      else m2.data ++ [(id, bytes)]
    .ok (id, { m2 with data := data3, currSize := m2.currSize + bytes.length })

/-- `MemoryStorage.Delete` (main.go:5318): subtract the held blob's length
(read BEFORE the delete, unlike `Store`'s eviction loop), then remove it. -/
def MemoryStorage.Delete (m : MemoryStorage) (id : String) : MemoryStorage :=
  match m.data.find? (fun kv => kv.1 == id) with
  | some kv =>
    { m with currSize := m.currSize - kv.2.length,
             data := eraseEntry m.data id }
  | none => m

/-! ## The cache-miss path of `handleImageProxy` (main.go:3222-3420)

Upstream HTTP, the filesystem and path derivation (`getCacheFilePath`,
the thumbnail filename) are external; they enter as the fetch outcome, a
write-success flag per file, and the two target paths.  The observable
state is the set of cache files on disk plus the in-memory `LRUCache`. -/

/-- Outcome of `client.Get(cleanImageURL)`. -/
inductive FetchResult where
  | netError : String → FetchResult
  | response : Int → List Nat → FetchResult
deriving DecidableEq

/-- State visible to later lookups: cache files on disk (path ↦ bytes) and
the in-memory cache. -/
structure ProxyState where
  files : List (String × List Nat)
  cache : LRUCache
deriving DecidableEq

/-- `os.WriteFile`: create or overwrite. -/
def writeFileS (files : List (String × List Nat)) (path : String) (bytes : List Nat) :
    List (String × List Nat) :=
  (path, bytes) :: files.filter (fun kv => kv.1 ≠ path)

/-- Apply the `os.Remove` events of a cache operation to the file map. -/
def applyCacheEvents (files : List (String × List Nat)) (evs : List CacheEvent) :
    List (String × List Nat) :=
  evs.foldl (fun acc ev =>
    match ev with
    | .deleteFile p => acc.filter (fun kv => kv.1 ≠ p)
    | .flushToDB _ => acc) files

/-- `updateCacheRecord` on a miss with the memory cache enabled
(main.go:2686-2710): build a fresh dirty entry (size = the written file's
size) and `lruCache.Put(url, entry)`. -/
def updateCacheRecordMiss (st : ProxyState) (url filePath thumbPath format : String)
    (fileSize : Int) (now : Nat) : ProxyState :=
  let entry : CacheEntry :=
    { url := url, filePath := filePath, thumbPath := thumbPath, format := format,
      accessCount := 1, lastAccess := now, createdAt := now, dirty := true, size := fileSize }
  let r := st.cache.Put url entry now
  { files := applyCacheEvents st.files r.2, cache := r.1 }

/-- The cache-miss path of `handleImageProxy` (main.go:3222-3420): fetch
upstream (errors → 502 / forwarded status, nothing stored), transform
(errors → returned as-is, nothing stored), then write the thumbnail and
the cache file and register the entry; a failed cache-file write is
logged and the response served without registering anything. -/
def handleMissPath (codec : Codec) (fetch : FetchResult) (p : ProxyParams)
    (cacheKey cachePath thumbPath : String) (cacheWriteOk thumbWriteOk : Bool)
    (now : Nat) (st : ProxyState) :
    Except HttpErr (List Nat × String) × ProxyState :=
  match fetch with
  | .netError m => (.error ⟨502, s!"图片下载失败: {m}"⟩, st)
  | .response status body =>
    if status ≠ 200 then (.error ⟨status, s!"图片下载失败: {status}"⟩, st)
    else
      match transform codec body p with
      | .error e => (.error e, st)
      | .ok r =>
        let imgData := outBytesData body r.out
        let thumbRes : String × ProxyState :=
          match r.imgAfter with
          | some i =>
            match codec.webpEncode (generateThumbnail i 200 200) with
            | .ok tb =>
              if thumbWriteOk then (thumbPath, { st with files := writeFileS st.files thumbPath tb })
              else ("", st)
            | .error _ => ("", st)
          | none => ("", st)
        let st1 := thumbRes.2
        if cacheWriteOk then
          let st2 : ProxyState := { st1 with files := writeFileS st1.files cachePath imgData }
          (.ok (imgData, r.format),
           updateCacheRecordMiss st2 cacheKey cachePath thumbRes.1 r.format (imgData.length : Int) now)
        else
          (.ok (imgData, r.format), st1)

/-- `true` exactly on `Except.error`. -/
def Except.isErr {ε α : Type} : Except ε α → Bool
  | .error _ => true
  | .ok _ => false

/-! ## Claim theorems -/

/-- Claim C10: every `MemoryStorage` operation is claimed to preserve
`currSize = Σ len(data)` — but `Store`'s eviction loop deletes the map
entry before reading its length, so the evicted bytes are never
subtracted.  Concretely: a 1-byte store into a full 1-byte-budget store
evicts the old blob yet leaves `currSize = 2` while only 1 byte is held —
the invariant held before the call and is broken after it. -/
theorem store_eviction_breaks_size_invariant :
    MemoryStorage.sizeInvariant ⟨[("x", [104])], 1, 1⟩ ∧
    MemoryStorage.Store ⟨[("x", [104])], 1, 1⟩ (fun _ => "h") [105] (some "y")
      = .ok ("y", ⟨[("y", [105])], 2, 1⟩) ∧
    ¬ MemoryStorage.sizeInvariant ⟨[("y", [105])], 2, 1⟩ := by
  exact ⟨by decide, rfl, by decide⟩

/-- Claim C4: the cache key is unchanged when a parameter is stated at its
default value — quality `q=80` given explicitly, or `mode=fit` given
explicitly, derive exactly the key of the request omitting it. -/
theorem cacheKey_stable_under_default_params
    (imageURL cleanImageURL f w h m q : String) :
    deriveCacheKey imageURL cleanImageURL f w h "80" m
      = deriveCacheKey imageURL cleanImageURL f w h "" m ∧
    deriveCacheKey imageURL cleanImageURL f w h q "fit"
      = deriveCacheKey imageURL cleanImageURL f w h q "" := by
  constructor
  · unfold deriveCacheKey
    have hq : parseQualityParam "80" = parseQualityParam "" := rfl
    rw [hq]
  · unfold deriveCacheKey
    have hm : parseModeParam "fit" = parseModeParam "" := rfl
    rw [hm]

/-- A minimal WebP byte string: `RIFF....WEBP` (12 bytes), which
`detectImageFormat` classifies as `"webp"`. -/
def sampleWebpBytes : List Nat := [82, 73, 70, 70, 0, 0, 0, 0, 87, 69, 66, 80]

/-- A minimal GIF byte string: `GIF89a` padded to 12 bytes, which
`detectImageFormat` classifies as `"gif"`. -/
def sampleGifBytes : List Nat := [71, 73, 70, 56, 57, 97, 0, 0, 0, 0, 0, 0]

/-- A codec oracle on which every library call fails — the transform stage
never reaches the codec on a WebP passthrough, so any oracle serves. -/
def stubCodec : Codec :=
  ⟨fun _ => .error "decode", fun _ => .error "encode",
   fun _ => .error "gifdecode", fun _ => .error "gifencode"⟩

/-- Claim C2 as stated: for a source format the codec cannot decode (WebP
input), a request with no resize is served unmodified AND a request with a
resize parameter fails fast with a client-facing error. -/
def ResizeUndecodableErrorClaim : Prop :=
  ∀ (codec : Codec) (raw : List Nat) (p : ProxyParams),
    detectImageFormat raw = "webp" →
    (p.forceOriginal || p.forceWebP || p.formatEmpty) = true →
    ((p.targetWidth = 0 ∧ p.targetHeight = 0 →
        transform codec raw p = .ok ⟨"webp", .raw, none⟩) ∧
     (0 < p.targetWidth ∨ 0 < p.targetHeight →
        (transform codec raw p).isErr = true))

/-- Claim C2 fails on the code: a WebP source requested with `w=100` (no
`format` parameter) is served as a raw passthrough, not an error — with a
nil decoded raster `needResize` is always false for WebP input, so the
`无法缩放 WebP` error branch (main.go:3329-3332) is unreachable. -/
theorem resizeUndecodable_counterexample : ¬ ResizeUndecodableErrorClaim := by
  intro hclaim
  have h := (hclaim stubCodec sampleWebpBytes ⟨false, false, true, 100, 0, 80, "fit"⟩
    (by decide) (by decide)).2 (Or.inl (by decide))
  exact absurd h (by decide)

/-- Claim C2 amended: a WebP source is always served as an unmodified
passthrough — whether or not a resize is requested, the resize being
silently ignored (`needResize` requires a decoded raster, which WebP never
has). -/
theorem webp_source_served_unmodified (codec : Codec) (raw : List Nat) (p : ProxyParams)
    (hdet : detectImageFormat raw = "webp")
    (hvalid : (p.forceOriginal || p.forceWebP || p.formatEmpty) = true) :
    transform codec raw p = .ok ⟨"webp", .raw, none⟩ := by
  unfold transform decodeStage
  rw [hdet]
  simp only [if_pos rfl, hvalid, if_pos]
  cases hfo : p.forceOriginal <;> cases hfw : p.forceWebP <;>
    simp [hfo, hfw, hvalid ▸ hfo ▸ hfw ▸ hvalid]

/-- Witness for the amended C2 theorem at a concrete input: a WebP source
with `format=original&w=100&h=100` is served raw. -/
theorem webp_source_served_unmodified_witness :
    transform stubCodec sampleWebpBytes ⟨false, true, false, 100, 100, 80, "fit"⟩
      = .ok ⟨"webp", .raw, none⟩ :=
  webp_source_served_unmodified stubCodec sampleWebpBytes
    ⟨false, true, false, 100, 100, 80, "fit"⟩ (by decide) (by decide)

instance {ε α : Type} [DecidableEq ε] [DecidableEq α] : DecidableEq (Except ε α) :=
  fun a b =>
    match a, b with
    | .ok x, .ok y =>
      if h : x = y then .isTrue (by rw [h]) else .isFalse (by intro hc; cases hc; exact h rfl)
    | .error x, .error y =>
      if h : x = y then .isTrue (by rw [h]) else .isFalse (by intro hc; cases hc; exact h rfl)
    | .ok _, .error _ => .isFalse (by intro hc; cases hc)
    | .error _, .ok _ => .isFalse (by intro hc; cases hc)

/-- Byte-wise lexicographic order on strings (Go's `<` on strings). -/
def strLeB (a b : String) : Bool :=
  let rec go : List Char → List Char → Bool
    | [], _ => true
    | _ :: _, [] => false
    | c :: cs, d :: ds =>
      if c = d then go cs ds else decide (c.toNat < d.toNat)
  go a.data b.data

/-- Insert into a lexicographically sorted list of strings. -/
def insertSorted (a : String) : List String → List String
  | [] => [a]
  | b :: bs => if strLeB a b then a :: b :: bs else b :: insertSorted a bs

/-- Lexicographic insertion sort on strings. -/
def sortStrings : List String → List String
  | [] => []
  | a :: as => insertSorted a (sortStrings as)

/-- Claim C3's reading of §4.2, as a definition that follows the spec's
words: the same validation as the code, but the suffix of non-default
parameters re-appended SORTED, onto the stripped (clean) URL. -/
def specCacheKeySorted (cleanImageURL f w h q m : String) : Except HttpErr String :=
  match parseFormatParam f with
  | .error e => .error e
  | .ok (forceWebP, forceOriginal) =>
    match parseDimParam w "宽度参数无效，必须是 1-5000 之间的整数" with
    | .error e => .error e
    | .ok targetWidth =>
      match parseDimParam h "高度参数无效，必须是 1-5000 之间的整数" with
      | .error e => .error e
      | .ok targetHeight =>
        match parseQualityParam q with
        | .error e => .error e
        | .ok quality =>
          match parseModeParam m with
          | .error e => .error e
          | .ok resizeMode =>
            let params := sortStrings
              (cacheKeyParams forceWebP forceOriginal targetWidth targetHeight quality resizeMode)
            .ok (if params = [] then cleanImageURL
                 else cleanImageURL ++ "?" ++ String.intercalate "&" params)

/-- Claim C3 as stated: the derived cache key is the source URL followed
by the non-default parameter suffix in sorted order. -/
def SortedKeySuffixClaim : Prop :=
  ∀ imageURL cleanImageURL f w h q m,
    deriveCacheKey imageURL cleanImageURL f w h q m
      = specCacheKeySorted cleanImageURL f w h q m

/-- Claim C3 fails on the code: for `w=100&h=50` the code appends the
suffix in its fixed append order, producing `...?w=100&h=50`, while the
sorted suffix would be `...?h=50&w=100`. -/
theorem sortedKeySuffix_counterexample : ¬ SortedKeySuffixClaim := by
  intro hclaim
  have h := hclaim "http://e.com/a" "http://e.com/a" "" "100" "50" "" ""
  exact absurd h (by decide)

/-- Claim C3 amended, as a definition in the spec's shape: the suffix
holds exactly the non-default parameters, in the FIXED order `format`,
`w`, `h`, `q`, `mode`, and it is appended to the original request URL
(the stripped URL is the key only when no parameter survives). -/
def specCacheKeyFixedOrder (imageURL cleanImageURL f w h q m : String) : Except HttpErr String :=
  match parseFormatParam f with
  | .error e => .error e
  | .ok (forceWebP, forceOriginal) =>
    match parseDimParam w "宽度参数无效，必须是 1-5000 之间的整数" with
    | .error e => .error e
    | .ok targetWidth =>
      match parseDimParam h "高度参数无效，必须是 1-5000 之间的整数" with
      | .error e => .error e
      | .ok targetHeight =>
        match parseQualityParam q with
        | .error e => .error e
        | .ok quality =>
          match parseModeParam m with
          | .error e => .error e
          | .ok resizeMode =>
            let items : List (Option String) :=
              [ if forceWebP then some "format=webp"
                else if forceOriginal then some "format=original" else none,
                if targetWidth > 0 then some s!"w={targetWidth}" else none,
                if targetHeight > 0 then some s!"h={targetHeight}" else none,
                if quality ≠ 80 then some s!"q={quality}" else none,
                if resizeMode ≠ "fit" ∧ (targetWidth > 0 ∨ targetHeight > 0)
                  then some s!"mode={resizeMode}" else none ]
            let params := items.filterMap id
            .ok (if params = [] then cleanImageURL
                 else imageURL ++ "?" ++ String.intercalate "&" params)

lemma cacheKeyParams_eq_filterMap (fw fo : Bool) (tw th qv : Int) (mv : String) :
    cacheKeyParams fw fo tw th qv mv =
      ([ if fw then some "format=webp" else if fo then some "format=original" else none,
         if tw > 0 then some s!"w={tw}" else none,
         if th > 0 then some s!"h={th}" else none,
         if qv ≠ 80 then some s!"q={qv}" else none,
         if mv ≠ "fit" ∧ (tw > 0 ∨ th > 0) then some s!"mode={mv}" else none ]
        : List (Option String)).filterMap id := by
  unfold cacheKeyParams
  split_ifs <;> simp_all

/-- Claim C3 amended: the derived cache key equals the fixed-order
specification above for every input. -/
theorem cacheKey_matches_fixed_order_spec (imageURL cleanImageURL f w h q m : String) :
    deriveCacheKey imageURL cleanImageURL f w h q m
      = specCacheKeyFixedOrder imageURL cleanImageURL f w h q m := by
  unfold deriveCacheKey specCacheKeyFixedOrder
  cases parseFormatParam f with
  | error e => rfl
  | ok fp =>
    obtain ⟨fw, fo⟩ := fp
    cases parseDimParam w "宽度参数无效，必须是 1-5000 之间的整数" with
    | error e => rfl
    | ok tw =>
      cases parseDimParam h "高度参数无效，必须是 1-5000 之间的整数" with
      | error e => rfl
      | ok th =>
        cases parseQualityParam q with
        | error e => rfl
        | ok qv =>
          cases parseModeParam m with
          | error e => rfl
          | ok mv => simp only [cacheKeyParams_eq_filterMap]

/-- A 1×1 all-zero raster used as a concrete decoded image. -/
def sampleImage : GoImage := ⟨1, 1, fun _ _ => Pixel.zero⟩

/-- A codec oracle behaving like the stdlib on a 2-frame animated GIF:
`image.Decode` yields the first raster and `"gif"`, `gif.DecodeAll` yields
two frames, and both encoders succeed. -/
def gifCodec : Codec :=
  ⟨fun _ => .ok (sampleImage, "gif"),
   fun _ => .ok [0],
   fun _ => .ok [sampleImage, sampleImage],
   fun _ => .ok [1]⟩

/-- Claim C9 as stated: EVERY request without resize parameters serves a
multi-frame animated GIF with its full frame count. -/
def AnimationPreservedClaim : Prop :=
  ∀ (codec : Codec) (raw : List Nat) (p : ProxyParams) (img : GoImage) (frames : List GoImage),
    detectImageFormat raw ≠ "webp" →
    codec.decode raw = .ok (img, "gif") →
    codec.gifDecodeAll raw = .ok frames →
    2 ≤ frames.length →
    p.targetWidth = 0 → p.targetHeight = 0 →
    ∀ r, transform codec raw p = .ok r →
      outFrameCount codec raw r.out = frames.length

/-- Claim C9 fails on the code: a 2-frame animated GIF requested with
`format=webp` (and no resize) is re-encoded through `nativewebp.Encode` of
the single decoded raster — served with frame count 1, silently
flattened. -/
theorem animationPreserved_counterexample : ¬ AnimationPreservedClaim := by
  intro hclaim
  have h := hclaim gifCodec sampleGifBytes ⟨true, false, false, 0, 0, 80, "fit"⟩
    sampleImage [sampleImage, sampleImage] (by decide) rfl rfl (by decide) rfl rfl
    ⟨"webp", .webpImg sampleImage [0], some sampleImage⟩ rfl
  simp only [outFrameCount, List.length_cons, List.length_nil] at h
  omega

/-- Claim C9 amended: a multi-frame animated GIF requested with no resize
parameters keeps its full frame count UNLESS the request forces WebP
conversion (`format=webp`), which flattens it; with `forceWebP` false the
served output — raw passthrough under `format=original`-family requests,
or `gif.EncodeAll` of all decoded frames on the default path — has exactly
the source's frame count. -/
theorem animated_gif_preserved_without_forceWebP
    (codec : Codec) (raw : List Nat) (p : ProxyParams)
    (img : GoImage) (frames : List GoImage) (bs : List Nat)
    (hdet : detectImageFormat raw ≠ "webp")
    (hdec : codec.decode raw = .ok (img, "gif"))
    (hframes : codec.gifDecodeAll raw = .ok frames)
    (h2 : 2 ≤ frames.length)
    (henc : codec.gifEncodeAll frames = .ok bs)
    (hw : p.targetWidth = 0) (hh : p.targetHeight = 0)
    (hnw : p.forceWebP = false) :
    ∃ r, transform codec raw p = .ok r ∧
      outFrameCount codec raw r.out = frames.length := by
  unfold transform decodeStage
  rw [if_neg hdet, hdec]
  simp only [hw, hh, hnw]
  cases hfo : p.forceOriginal with
  | true =>
    refine ⟨⟨"gif", .raw, some img⟩, ?_, ?_⟩
    · simp
    · simp [outFrameCount, srcFrameCount, hframes]
  | false =>
    refine ⟨⟨"gif", .gifAnim frames bs, some img⟩, ?_, ?_⟩
    · simp only [Bool.false_eq_true, decide_False]
      simp [hframes, henc, Nat.lt_of_lt_of_le Nat.one_lt_two h2]
    · simp [outFrameCount]

/-- Witness for the amended C9 theorem at a concrete input: the 2-frame
GIF through the default path (no `format`, no resize) is served as a
2-frame animated GIF. -/
theorem animated_gif_preserved_without_forceWebP_witness :
    transform gifCodec sampleGifBytes ⟨false, false, true, 0, 0, 80, "fit"⟩
      = .ok ⟨"gif", .gifAnim [sampleImage, sampleImage] [1], some sampleImage⟩ ∧
    outFrameCount gifCodec sampleGifBytes (OutBytes.gifAnim [sampleImage, sampleImage] [1]) = 2 := by
  obtain ⟨r, hr, hc⟩ := animated_gif_preserved_without_forceWebP gifCodec sampleGifBytes
    ⟨false, false, true, 0, 0, 80, "fit"⟩ sampleImage [sampleImage, sampleImage] [1]
    (by decide) rfl rfl (by decide) rfl rfl rfl rfl
  exact ⟨rfl, rfl⟩

/-- Claim C1 as stated: any dirty entry whose backing file is deleted by
`Put`'s eviction is also flushed to the durable index by that `Put` (the
claim additionally orders the flush first; this consequence is already
refuted). -/
def EvictionFlushClaim : Prop :=
  ∀ (c : LRUCache) (key : String) (e : CacheEntry) (now : Nat) (t : CacheEntry),
    t ∈ c.entries → t.dirty = true →
    CacheEvent.deleteFile t.filePath ∈ (c.Put key e now).2 →
    CacheEvent.flushToDB t.url ∈ (c.Put key e now).2

/-- Claim C1 fails on the code: `evictTail` only calls `os.Remove`; a
`Put` of key `"b"` into a 1-entry cache holding the DIRTY entry `"a"`
(max_entries = 1) evicts `"a"`, deleting its file with no flush of any
kind in the trace. -/
theorem evictionFlush_counterexample : ¬ EvictionFlushClaim := by
  intro hclaim
  have h := hclaim ⟨[⟨"a", "fa", "", "webp", 1, 0, 0, true, 0⟩], 1, 1000, 0⟩ "b"
    ⟨"b", "fb", "", "webp", 1, 0, 0, true, 0⟩ 0
    ⟨"a", "fa", "", "webp", 1, 0, 0, true, 0⟩
    (by decide) (by decide) (by decide)
  exact absurd h (by decide)

lemma evictTail_events_deleteFile (c : LRUCache) (ev : CacheEvent)
    (hev : ev ∈ c.evictTail.2) : ∃ p, ev = CacheEvent.deleteFile p := by
  unfold LRUCache.evictTail at hev
  rcases hl : c.entries.getLast? with _ | t <;> rw [hl] at hev
  · simp at hev
  · simp only [List.mem_append] at hev
    rcases hev with hev | hev <;> split at hev <;> simp_all

lemma evictLoopF_events_deleteFile (fuel : Nat) (c : LRUCache) (ev : CacheEvent)
    (hev : ev ∈ (evictLoopF fuel c).2) : ∃ p, ev = CacheEvent.deleteFile p := by
  induction fuel generalizing c with
  | zero => simp [evictLoopF] at hev
  | succ n ih =>
    unfold evictLoopF at hev
    split at hev
    · simp only [List.mem_append] at hev
      rcases hev with hev | hev
      · exact evictTail_events_deleteFile c ev hev
      · exact ih _ hev
    · simp at hev

lemma evictLoopF_removed_logged (fuel : Nat) (c : LRUCache) (t : CacheEntry)
    (hmem : t ∈ c.entries)
    (hgone : ∀ x ∈ (evictLoopF fuel c).1.entries, x.url ≠ t.url)
    (hfp : t.filePath ≠ "") :
    CacheEvent.deleteFile t.filePath ∈ (evictLoopF fuel c).2 := by
  induction fuel generalizing c with
  | zero =>
    exact absurd rfl (hgone t (by simpa [evictLoopF] using hmem))
  | succ n ih =>
    by_cases hc : evictCond c
    · have hne : c.entries ≠ [] := hc.2
      have hsplit := List.dropLast_concat_getLast hne
      have hmem2 : t ∈ c.entries.dropLast ∨ t = c.entries.getLast hne := by
        rw [← hsplit] at hmem
        rcases List.mem_append.mp hmem with h | h
        · exact Or.inl h
        · exact Or.inr (List.mem_singleton.mp h)
      have hunf : evictLoopF (n + 1) c
          = ((evictLoopF n c.evictTail.1).1, c.evictTail.2 ++ (evictLoopF n c.evictTail.1).2) := by
        rw [evictLoopF, if_pos hc]
      have htail : c.evictTail
          = ({ c with entries := c.entries.dropLast,
                      currentSize := c.currentSize - (c.entries.getLast hne).size },
             (if (c.entries.getLast hne).filePath ≠ "" then
                [CacheEvent.deleteFile (c.entries.getLast hne).filePath] else [])
               ++ (if (c.entries.getLast hne).thumbPath ≠ "" then
                [CacheEvent.deleteFile (c.entries.getLast hne).thumbPath] else [])) := by
        unfold LRUCache.evictTail
        rw [List.getLast?_eq_getLast c.entries hne]
      rcases hmem2 with hdrop | hlast
      · have hgone2 : ∀ x ∈ (evictLoopF n c.evictTail.1).1.entries, x.url ≠ t.url := by
          intro x hx
          exact hgone x (by rw [hunf] at hgone ⊢; exact hx)
        have hmem3 : t ∈ c.evictTail.1.entries := by rw [htail]; exact hdrop
        have := ih c.evictTail.1 hmem3 (by
          intro x hx
          apply hgone
          rw [hunf]
          exact hx)
        rw [hunf]
        exact List.mem_append_right _ this
      · rw [hunf]
        apply List.mem_append_left
        rw [htail]
        simp only
        rw [← hlast, if_pos hfp]
        exact List.mem_append_left _ (List.mem_singleton.mpr rfl)
    · exact absurd rfl (hgone t (by rw [evictLoopF, if_neg hc] at hgone ⊢; exact hmem))

/-- Claim C1 amended: an entry evicted by `Put` (present before, no entry
with its URL after) with a nonempty file path has that file deleted, and
the whole event trace of `Put` consists of file deletions only — no flush
to the durable index ever happens during eviction, dirty or not. -/
theorem put_eviction_deletes_without_flush (c : LRUCache) (key : String)
    (e : CacheEntry) (now : Nat) (t : CacheEntry)
    (hmem : t ∈ c.entries)
    (hgone : ∀ x ∈ (c.Put key e now).1.entries, x.url ≠ t.url)
    (hfp : t.filePath ≠ "") :
    CacheEvent.deleteFile t.filePath ∈ (c.Put key e now).2 ∧
    ∀ ev ∈ (c.Put key e now).2, ∃ p, ev = CacheEvent.deleteFile p := by
  unfold LRUCache.Put at hgone ⊢
  cases hf : c.entries.find? (fun x => x.url == key) with
  | some existing =>
    rw [hf] at hgone
    exfalso
    have hex : existing.url = key := by
      have := List.find?_some hf
      simpa using this
    have hkey : key ≠ t.url := by
      have := hgone { existing with
        filePath := e.filePath, thumbPath := e.thumbPath,
        format := e.format, size := e.size,
        lastAccess := now, dirty := true } (List.mem_cons_self _ _)
      simpa [hex] using this
    have htmem : t ∈ c.entries.eraseP (fun x => x.url == key) := by
      rw [List.mem_eraseP_of_neg]
      · exact hmem
      · simp
        intro hcon
        exact hkey hcon.symm
    exact hgone t (List.mem_cons_of_mem _ htmem) rfl
  | none =>
    rw [hf] at hgone
    constructor
    · exact evictLoopF_removed_logged _ _ t (List.mem_cons_of_mem _ hmem) hgone hfp
    · intro ev hev
      exact evictLoopF_events_deleteFile _ _ ev hev

/-- Witness for the amended C1 theorem at the counterexample input: the
dirty entry `"a"` evicted by `Put "b"` has its file `"fa"` deleted, and
every event of that `Put` is a file deletion. -/
theorem put_eviction_deletes_without_flush_witness :
    CacheEvent.deleteFile "fa"
      ∈ ((⟨[⟨"a", "fa", "", "webp", 1, 0, 0, true, 0⟩], 1, 1000, 0⟩ : LRUCache).Put "b"
          ⟨"b", "fb", "", "webp", 1, 0, 0, true, 0⟩ 0).2 ∧
    ∀ ev ∈ ((⟨[⟨"a", "fa", "", "webp", 1, 0, 0, true, 0⟩], 1, 1000, 0⟩ : LRUCache).Put "b"
          ⟨"b", "fb", "", "webp", 1, 0, 0, true, 0⟩ 0).2,
      ∃ p, ev = CacheEvent.deleteFile p :=
  put_eviction_deletes_without_flush
    ⟨[⟨"a", "fa", "", "webp", 1, 0, 0, true, 0⟩], 1, 1000, 0⟩ "b"
    ⟨"b", "fb", "", "webp", 1, 0, 0, true, 0⟩ 0
    ⟨"a", "fa", "", "webp", 1, 0, 0, true, 0⟩
    (by decide) (by decide) (by decide)

/-- The scaled width computed by `resizeImage`'s `pad` mode. -/
def padScaledW (img : GoImage) (tw th : Int) : Int :=
  goTrunc ((img.width : ℚ) * min ((tw : ℚ) / (img.width : ℚ)) ((th : ℚ) / (img.height : ℚ)))

/-- The scaled height computed by `resizeImage`'s `pad` mode. -/
def padScaledH (img : GoImage) (tw th : Int) : Int :=
  goTrunc ((img.height : ℚ) * min ((tw : ℚ) / (img.width : ℚ)) ((th : ℚ) / (img.height : ℚ)))

/-- The horizontal centring offset of `pad` mode. -/
def padOffsetX (img : GoImage) (tw th : Int) : Int :=
  goDiv (tw - padScaledW img tw th) 2

/-- The vertical centring offset of `pad` mode. -/
def padOffsetY (img : GoImage) (tw th : Int) : Int :=
  goDiv (th - padScaledH img tw th) 2

/-- The pixels of the `pad` canvas covered by the scaled image; everything
else in the canvas is padding. -/
def padRegion (img : GoImage) (tw th u v : Int) : Prop :=
  padOffsetX img tw th ≤ u ∧ u < padOffsetX img tw th + padScaledW img tw th ∧
  padOffsetY img tw th ≤ v ∧ v < padOffsetY img tw th + padScaledH img tw th

instance (img : GoImage) (tw th u v : Int) : Decidable (padRegion img tw th u v) := by
  unfold padRegion; infer_instance

lemma goTrunc_le_intCast (q : ℚ) (n : Int) (hq : q ≤ (n : ℚ)) (hn : 0 ≤ n) :
    goTrunc q ≤ n := by
  unfold goTrunc
  split
  · rename_i hneg
    have h1 : (0 : Int) ≤ Int.floor (-q) := Int.floor_nonneg.mpr (by linarith)
    omega
  · calc Int.floor q ≤ Int.floor ((n : ℚ)) := Int.floor_le_floor hq
    _ = n := Int.floor_intCast n

lemma resizeImage_pad_eq (img : GoImage) (tw th : Int) (htw : tw ≠ 0) (hth : th ≠ 0) :
    resizeImage img tw th "pad" =
      { width := tw, height := th,
        px := fun u v =>
          if padRegion img tw th u v then
            (scaleImage img (padScaledW img tw th) (padScaledH img tw th)).At
              (u - padOffsetX img tw th) (v - padOffsetY img tw th)
          else whitePixel } := by
  unfold resizeImage padRegion padOffsetX padOffsetY padScaledW padScaledH
  rw [if_neg (fun hand => htw hand.1), if_neg htw, if_neg htw, if_neg hth]
  rw [if_neg (by decide : ¬("pad" : String) = "stretch")]
  rw [if_neg (by decide : ¬("pad" : String) = "fill")]
  rw [if_pos rfl]

lemma resizeImage_fit_eq (img : GoImage) (tw th : Int) (htw : tw ≠ 0) (hth : th ≠ 0) :
    resizeImage img tw th "fit"
      = scaleImage img (padScaledW img tw th) (padScaledH img tw th) := by
  unfold resizeImage padScaledW padScaledH
  rw [if_neg (fun hand => htw hand.1), if_neg htw, if_neg htw, if_neg hth]
  rw [if_neg (by decide : ¬("fit" : String) = "stretch")]
  rw [if_neg (by decide : ¬("fit" : String) = "fill")]
  rw [if_neg (by decide : ¬("fit" : String) = "pad")]

lemma resizeImage_fill_dims (img : GoImage) (tw th : Int) (htw : tw ≠ 0) (hth : th ≠ 0) :
    (resizeImage img tw th "fill").width = tw ∧ (resizeImage img tw th "fill").height = th := by
  unfold resizeImage
  rw [if_neg (fun hand => htw hand.1), if_neg htw, if_neg htw, if_neg hth]
  rw [if_neg (by decide : ¬("fill" : String) = "stretch")]
  rw [if_pos rfl]
  exact ⟨rfl, rfl⟩

lemma resizeImage_stretch_dims (img : GoImage) (tw th : Int) (htw : tw ≠ 0) (hth : th ≠ 0) :
    (resizeImage img tw th "stretch").width = tw
      ∧ (resizeImage img tw th "stretch").height = th := by
  unfold resizeImage
  rw [if_neg (fun hand => htw hand.1), if_neg htw, if_neg htw, if_neg hth]
  rw [if_pos rfl]
  exact ⟨rfl, rfl⟩

lemma padScaledW_le (img : GoImage) (tw th : Int)
    (how : 0 < img.width) (hoh : 0 < img.height) (htw : 0 ≤ tw) (hth : 0 ≤ th) :
    padScaledW img tw th ≤ tw := by
  unfold padScaledW
  apply goTrunc_le_intCast _ _ _ htw
  have hw0 : (0 : ℚ) < (img.width : ℚ) := by exact_mod_cast how
  calc (img.width : ℚ) * min ((tw : ℚ) / (img.width : ℚ)) ((th : ℚ) / (img.height : ℚ))
      ≤ (img.width : ℚ) * ((tw : ℚ) / (img.width : ℚ)) :=
        mul_le_mul_of_nonneg_left (min_le_left _ _) (le_of_lt hw0)
    _ = (tw : ℚ) := by
        rw [mul_comm, div_mul_cancel₀]
        exact ne_of_gt hw0

lemma padScaledH_le (img : GoImage) (tw th : Int)
    (how : 0 < img.width) (hoh : 0 < img.height) (htw : 0 ≤ tw) (hth : 0 ≤ th) :
    padScaledH img tw th ≤ th := by
  unfold padScaledH
  apply goTrunc_le_intCast _ _ _ hth
  have hh0 : (0 : ℚ) < (img.height : ℚ) := by exact_mod_cast hoh
  calc (img.height : ℚ) * min ((tw : ℚ) / (img.width : ℚ)) ((th : ℚ) / (img.height : ℚ))
      ≤ (img.height : ℚ) * ((th : ℚ) / (img.height : ℚ)) :=
        mul_le_mul_of_nonneg_left (min_le_right _ _) (le_of_lt hh0)
    _ = (th : ℚ) := by
        rw [mul_comm, div_mul_cancel₀]
        exact ne_of_gt hh0

/-- Claim C5: for a source with positive dimensions and a requested box
`1 ≤ w, h ≤ 5000`, `fit` never exceeds the box on either axis; `fill` and
`stretch` produce exactly the box; `pad` produces exactly the box with
every canvas pixel outside the centred scaled region exactly opaque
white. -/
theorem resize_modes_respect_box (img : GoImage) (tw th : Int)
    (how : 0 < img.width) (hoh : 0 < img.height)
    (htw1 : 1 ≤ tw) (htw2 : tw ≤ 5000) (hth1 : 1 ≤ th) (hth2 : th ≤ 5000) :
    ((resizeImage img tw th "fit").width ≤ tw
      ∧ (resizeImage img tw th "fit").height ≤ th) ∧
    ((resizeImage img tw th "fill").width = tw
      ∧ (resizeImage img tw th "fill").height = th) ∧
    ((resizeImage img tw th "stretch").width = tw
      ∧ (resizeImage img tw th "stretch").height = th) ∧
    ((resizeImage img tw th "pad").width = tw
      ∧ (resizeImage img tw th "pad").height = th
      ∧ ∀ u v : Int, 0 ≤ u → u < tw → 0 ≤ v → v < th → ¬ padRegion img tw th u v →
          (resizeImage img tw th "pad").At u v = whitePixel) := by
  have htw : tw ≠ 0 := by omega
  have hth : th ≠ 0 := by omega
  refine ⟨?_, resizeImage_fill_dims img tw th htw hth,
    resizeImage_stretch_dims img tw th htw hth, ?_, ?_, ?_⟩
  · rw [resizeImage_fit_eq img tw th htw hth]
    exact ⟨padScaledW_le img tw th how hoh (by omega) (by omega),
      padScaledH_le img tw th how hoh (by omega) (by omega)⟩
  · rw [resizeImage_pad_eq img tw th htw hth]
  · rw [resizeImage_pad_eq img tw th htw hth]
  · intro u v hu0 hu hv0 hv hreg
    rw [resizeImage_pad_eq img tw th htw hth]
    unfold GoImage.At
    rw [if_pos ⟨hu0, hu, hv0, hv⟩]
    exact if_neg hreg

/-- Witness for C5 at a concrete input: a 1×1 source resized into a 3×2
box in each mode. -/
theorem resize_modes_respect_box_witness :
    ((resizeImage sampleImage 3 2 "fit").width ≤ 3
      ∧ (resizeImage sampleImage 3 2 "fit").height ≤ 2) ∧
    ((resizeImage sampleImage 3 2 "fill").width = 3
      ∧ (resizeImage sampleImage 3 2 "fill").height = 2) ∧
    ((resizeImage sampleImage 3 2 "stretch").width = 3
      ∧ (resizeImage sampleImage 3 2 "stretch").height = 2) ∧
    ((resizeImage sampleImage 3 2 "pad").width = 3
      ∧ (resizeImage sampleImage 3 2 "pad").height = 2
      ∧ ∀ u v : Int, 0 ≤ u → u < 3 → 0 ≤ v → v < 2 → ¬ padRegion sampleImage 3 2 u v →
          (resizeImage sampleImage 3 2 "pad").At u v = whitePixel) :=
  resize_modes_respect_box sampleImage 3 2 (by decide) (by decide)
    (by decide) (by decide) (by decide) (by decide)

lemma evictLoopF_no_evict (fuel : Nat) (c : LRUCache) (h : ¬ evictCond c) :
    evictLoopF fuel c = (c, []) := by
  cases fuel with
  | zero => rfl
  | succ n => rw [evictLoopF, if_neg h]

lemma evictLoop_no_evict (c : LRUCache) (h : ¬ evictCond c) : evictLoop c = (c, []) :=
  evictLoopF_no_evict _ c h

lemma evictLoop_once (c : LRUCache) (h : evictCond c) (h2 : ¬ evictCond c.evictTail.1) :
    evictLoop c = (c.evictTail.1, c.evictTail.2) := by
  unfold evictLoop
  cases hl : c.entries.length with
  | zero => exact absurd (List.length_eq_zero.mp hl) h.2
  | succ n =>
    rw [evictLoopF, if_pos h]
    simp only [evictLoopF_no_evict n _ h2, List.append_nil]

lemma Put_new_key (c : LRUCache) (key : String) (e : CacheEntry) (now : Nat)
    (hnone : c.entries.find? (fun x => x.url == key) = none) :
    c.Put key e now
      = evictLoop { c with entries := e :: c.entries,
                           currentSize := c.currentSize + e.size } := by
  unfold LRUCache.Put
  rw [hnone]

lemma Get_fst_none (c : LRUCache) (u : String) (now : Nat)
    (h : c.entries.find? (fun x => x.url == u) = none) :
    (c.Get u now).1 = none := by
  unfold LRUCache.Get
  rw [h]

lemma Get_fst_isSome (c : LRUCache) (u : String) (now : Nat)
    (h : (c.entries.find? (fun x => x.url == u)).isSome = true) :
    ((c.Get u now).1).isSome = true := by
  unfold LRUCache.Get
  cases hf : c.entries.find? (fun x => x.url == u) with
  | none => rw [hf] at h; exact absurd h (by decide)
  | some x => rfl

lemma putList_no_evict (es : List CacheEntry) (c : LRUCache) (now : Nat)
    (hcap : (c.entries.length : Int) + es.length ≤ c.maxEntries)
    (hsize : c.currentSize + (es.map (fun e => e.size)).sum
      ≤ (c.maxSizeMB : Int) * 1024 * 1024)
    (hpos : ∀ e ∈ es, 0 ≤ e.size)
    (hfresh : ∀ e ∈ es, ∀ x ∈ c.entries, x.url ≠ e.url)
    (hnd : (es.map (fun e => e.url)).Nodup) :
    putList c es now
      = { c with entries := es.reverse ++ c.entries,
                 currentSize := c.currentSize + (es.map (fun e => e.size)).sum } := by
  induction es generalizing c with
  | nil => simp [putList]
  | cons e rest ih =>
    have hnone : c.entries.find? (fun x => x.url == e.url) = none := by
      rw [List.find?_eq_none]
      intro x hx
      simpa using hfresh e (List.mem_cons_self _ _) x hx
    have hrestpos : (0 : Int) ≤ (rest.map (fun e => e.size)).sum :=
      List.sum_nonneg (by
        intro a ha
        obtain ⟨x, hx, rfl⟩ := List.mem_map.mp ha
        exact hpos x (List.mem_cons_of_mem _ hx))
    have hnocond : ¬ evictCond { c with entries := e :: c.entries, currentSize := c.currentSize + e.size } := by
      unfold evictCond
      intro hcond
      rcases hcond.1 with hlen | hsz
      · simp only [List.length_cons] at hlen
        have hre : (0 : Int) ≤ rest.length := by positivity
        simp only [List.length_cons, List.map_cons, List.sum_cons] at hcap
        push_cast at hcap hlen
        omega
      · simp only [List.map_cons, List.sum_cons] at hsize
        simp only at hsz
        linarith
    have hput : (c.Put e.url e now).1
        = { c with entries := e :: c.entries, currentSize := c.currentSize + e.size } := by
      rw [Put_new_key c e.url e now hnone, evictLoop_no_evict _ hnocond]
    have hstep : putList c (e :: rest) now = putList (c.Put e.url e now).1 rest now := by
      simp [putList]
    have hcap2 : (((e :: c.entries).length : Int)) + rest.length ≤ c.maxEntries := by
      simp only [List.length_cons] at hcap ⊢
      push_cast at hcap ⊢
      omega
    have hsize2 : (c.currentSize + e.size) + (rest.map (fun e => e.size)).sum
        ≤ (c.maxSizeMB : Int) * 1024 * 1024 := by
      simp only [List.map_cons, List.sum_cons] at hsize
      linarith
    have hpos2 : ∀ x ∈ rest, (0 : Int) ≤ x.size := fun x hx =>
      hpos x (List.mem_cons_of_mem _ hx)
    have hfresh2 : ∀ e2 ∈ rest, ∀ x ∈ e :: c.entries, x.url ≠ e2.url := by
      intro e2 he2 x hx
      rcases List.mem_cons.mp hx with rfl | hx2
      · simp only [List.map_cons, List.nodup_cons] at hnd
        intro hcon
        exact hnd.1 (hcon ▸ List.mem_map.mpr ⟨e2, he2, rfl⟩)
      · exact hfresh e2 (List.mem_cons_of_mem _ he2) x hx2
    have hnd2 : (rest.map (fun e => e.url)).Nodup := by
      simp only [List.map_cons, List.nodup_cons] at hnd
      exact hnd.2
    rw [hstep, hput,
      ih { c with entries := e :: c.entries, currentSize := c.currentSize + e.size }
        hcap2 hsize2 hpos2 hfresh2 hnd2]
    simp [List.append_assoc, add_assoc]

/-- Claim C6: inserting `N+1` distinct entries (byte budget not exceeded)
into a fresh cache with `max_entries = N` leaves exactly the last `N`
resident (in recency order) — the first-inserted, least-recently-used
entry is evicted: a subsequent `Get` of it misses while every other
inserted key hits. -/
theorem lru_insert_overflow_evicts_lru (N M : Int) (e0 : CacheEntry)
    (rest : List CacheEntry) (now : Nat)
    (hN : 1 ≤ N)
    (hlen : (rest.length : Int) = N)
    (hnd : ((e0 :: rest).map (fun e => e.url)).Nodup)
    (hpos : ∀ e ∈ e0 :: rest, 0 ≤ e.size)
    (hbud : ((e0 :: rest).map (fun e => e.size)).sum ≤ M * 1024 * 1024) :
    (putList (NewLRUCache N M) (e0 :: rest) now).entries = rest.reverse ∧
    ((putList (NewLRUCache N M) (e0 :: rest) now).Get e0.url now).1 = none ∧
    ∀ e ∈ rest, (((putList (NewLRUCache N M) (e0 :: rest) now).Get e.url now).1).isSome
      = true := by
  have hrne : rest ≠ [] := by
    intro hr
    rw [hr] at hlen
    simp at hlen
    omega
  obtain ⟨ys, z, hsplit⟩ : ∃ ys z, rest = ys ++ [z] := by
    refine ⟨rest.dropLast, rest.getLast hrne, ?_⟩
    exact (List.dropLast_concat_getLast hrne).symm
  have hzmem : z ∈ rest := by rw [hsplit]; simp
  have hysn : (ys.length : Int) = N - 1 := by
    have : rest.length = ys.length + 1 := by rw [hsplit]; simp
    rw [this] at hlen
    push_cast at hlen
    omega
  have hmaprest : rest.map (fun e => e.url) = ys.map (fun e => e.url) ++ [z.url] := by
    rw [hsplit]; simp
  have hmapsz : rest.map (fun e => e.size) = ys.map (fun e => e.size) ++ [z.size] := by
    rw [hsplit]; simp
  have hnd2 := hnd
  simp only [List.map_cons, List.nodup_cons, hmaprest] at hnd2
  -- hnd2 : e0.url ∉ ys.map url ++ [z.url] ∧ (ys.map url ++ [z.url]).Nodup
  have hzsize : (0 : Int) ≤ z.size := hpos z (List.mem_cons_of_mem _ hzmem)
  have hsum : ((e0 :: rest).map (fun e => e.size)).sum
      = e0.size + ((ys.map (fun e => e.size)).sum + z.size) := by
    simp [hmapsz]
  -- Stage 1: the first N inserts never evict.
  have h1 := putList_no_evict (e0 :: ys) (NewLRUCache N M) now
    (by
      simp only [NewLRUCache, List.length_nil, List.length_cons]
      push_cast
      omega)
    (by
      simp only [NewLRUCache, List.map_cons, List.sum_cons]
      have he0 : (0 : Int) ≤ e0.size := hpos e0 (List.mem_cons_self _ _)
      simp only [List.map_cons, List.sum_cons, hmapsz, List.sum_append,
        List.sum_cons, List.sum_nil] at hbud
      linarith)
    (by
      intro e he
      apply hpos
      rcases List.mem_cons.mp he with rfl | hy
      · exact List.mem_cons_self _ _
      · exact List.mem_cons_of_mem _ (by rw [hsplit]; exact List.mem_append_left _ hy))
    (by intro e _ x hx; simp [NewLRUCache] at hx)
    (by
      have hsub : List.Sublist ((e0 :: ys).map (fun e => e.url))
          ((e0 :: rest).map (fun e => e.url)) := by
        apply List.Sublist.map
        exact List.cons_sublist_cons.mpr (by rw [hsplit]; simp)
      exact hnd.sublist hsub)
  -- Stage 2: the final insert evicts exactly the head.
  have hc1entries : (putList (NewLRUCache N M) (e0 :: ys) now).entries
      = ys.reverse ++ [e0] := by
    rw [h1]
    simp [NewLRUCache]
  have hfold : putList (NewLRUCache N M) (e0 :: rest) now
      = ((putList (NewLRUCache N M) (e0 :: ys) now).Put z.url z now).1 := by
    have : e0 :: rest = (e0 :: ys) ++ [z] := by
      rw [hsplit]
      exact (List.cons_append _ _ _).symm
    rw [this]
    simp [putList, List.foldl_append]
  have hfreshz : ∀ x ∈ ys.reverse ++ [e0], x.url ≠ z.url := by
    intro x hx
    rcases List.mem_append.mp hx with hx | hx
    · have hxys : x ∈ ys := List.mem_reverse.mp hx
      intro hcon
      have hzin : z.url ∈ ys.map (fun e => e.url) :=
        hcon ▸ List.mem_map.mpr ⟨x, hxys, rfl⟩
      have hdisj := (List.nodup_append.mp hnd2.2).2.2
      exact hdisj hzin (List.mem_singleton.mpr rfl)
    · have hxe0 : x = e0 := List.mem_singleton.mp hx
      subst hxe0
      intro hcon
      exact hnd2.1 (hcon ▸ List.mem_append_right _ (List.mem_singleton.mpr rfl))
  have hfindz : (putList (NewLRUCache N M) (e0 :: ys) now).entries.find?
      (fun x => x.url == z.url) = none := by
    rw [hc1entries, List.find?_eq_none]
    intro x hx
    simpa using hfreshz x hx
  rw [hfold, Put_new_key _ _ _ _ hfindz]
  -- the overfull cache
  obtain ⟨c2, hc2⟩ : ∃ c2 : LRUCache,
      c2 = { putList (NewLRUCache N M) (e0 :: ys) now with
             entries := z :: (putList (NewLRUCache N M) (e0 :: ys) now).entries,
             currentSize := (putList (NewLRUCache N M) (e0 :: ys) now).currentSize + z.size } :=
    ⟨_, rfl⟩
  rw [← hc2]
  have hc2e : c2.entries = (z :: ys.reverse) ++ [e0] := by
    rw [hc2]
    simp [hc1entries]
  have hc2max : c2.maxEntries = N := by
    rw [hc2, h1]
    simp [NewLRUCache]
  have hc2mb : c2.maxSizeMB = M := by
    rw [hc2, h1]
    simp [NewLRUCache]
  have hc2size : c2.currentSize
      = e0.size + ((ys.map (fun e => e.size)).sum + z.size) := by
    rw [hc2, h1]
    simp [NewLRUCache, add_assoc, add_comm, add_left_comm]
  have htail : c2.evictTail
      = ({ c2 with entries := z :: ys.reverse, currentSize := c2.currentSize - e0.size },
         (if e0.filePath ≠ "" then [CacheEvent.deleteFile e0.filePath] else [])
           ++ (if e0.thumbPath ≠ "" then [CacheEvent.deleteFile e0.thumbPath] else [])) := by
    unfold LRUCache.evictTail
    rw [hc2e, List.getLast?_concat, List.dropLast_concat]
  have hcond : evictCond c2 := by
    constructor
    · left
      rw [hc2e, hc2max]
      simp only [List.length_append, List.length_cons, List.length_reverse]
      push_cast
      omega
    · rw [hc2e]; simp
  have hrestsum : ((ys.map (fun e => e.size)).sum + z.size) ≤ M * 1024 * 1024 := by
    have he0 : (0 : Int) ≤ e0.size := hpos e0 (List.mem_cons_self _ _)
    rw [hsum] at hbud
    linarith
  have hnotcond : ¬ evictCond c2.evictTail.1 := by
    rw [htail]
    unfold evictCond
    simp only [not_and_or]
    left
    intro hcond2
    rcases hcond2 with hlen2 | hsz2
    · rw [hc2max] at hlen2
      simp only [List.length_cons, List.length_reverse] at hlen2
      push_cast at hlen2
      omega
    · rw [hc2mb, hc2size] at hsz2
      have : e0.size + ((ys.map (fun e => e.size)).sum + z.size) - e0.size
          = (ys.map (fun e => e.size)).sum + z.size := by ring
      rw [this] at hsz2
      linarith
  rw [evictLoop_once c2 hcond hnotcond, htail]
  have hrevrest : (z :: ys.reverse) = rest.reverse := by
    rw [hsplit]
    simp
  refine ⟨hrevrest, ?_, ?_⟩
  · apply Get_fst_none
    simp only [hrevrest]
    rw [List.find?_eq_none]
    intro x hx
    have hxrest : x ∈ rest := List.mem_reverse.mp (hrevrest ▸ hx)
    simp only [List.map_cons, List.nodup_cons] at hnd
    simp only [beq_iff_eq]
    intro hcon
    exact hnd.1 (hcon ▸ List.mem_map.mpr ⟨x, hxrest, rfl⟩)
  · intro e he
    apply Get_fst_isSome
    simp only [hrevrest]
    rw [List.find?_isSome]
    exact ⟨e, List.mem_reverse.mpr he, by simp⟩

/-- Concrete cache entry with key `"A"` for the Scenario C witness. -/
def entryA : CacheEntry := ⟨"A", "fA", "", "webp", 1, 0, 0, true, 0⟩

/-- Concrete cache entry with key `"B"` for the Scenario C witness. -/
def entryB : CacheEntry := ⟨"B", "fB", "", "webp", 1, 0, 0, true, 0⟩

/-- Concrete cache entry with key `"C"` for the Scenario C witness. -/
def entryC : CacheEntry := ⟨"C", "fC", "", "webp", 1, 0, 0, true, 0⟩

/-- Witness for C6 at the spec's Scenario C: `max_entries = 2`, insert
`A`, `B`, `C` — afterwards `A` misses while `B` and `C` hit. -/
theorem lru_insert_overflow_evicts_lru_witness :
    (putList (NewLRUCache 2 1) (entryA :: [entryB, entryC]) 0).entries
      = [entryB, entryC].reverse ∧
    ((putList (NewLRUCache 2 1) (entryA :: [entryB, entryC]) 0).Get entryA.url 0).1 = none ∧
    ∀ e ∈ [entryB, entryC],
      (((putList (NewLRUCache 2 1) (entryA :: [entryB, entryC]) 0).Get e.url 0).1).isSome
        = true :=
  lru_insert_overflow_evicts_lru 2 1 entryA [entryB, entryC] 0
    (by decide) (by decide) (by decide) (by decide) (by decide)

lemma clearStep_mem (c : LRUCache) (u : String) (now : Nat) (e : CacheEntry)
    (he : e ∈ (clearStep c u now).entries) :
    e.dirty = false ∨ (e.url ≠ u ∧ e ∈ c.entries) := by
  unfold clearStep LRUCache.Get at he
  cases hf : c.entries.find? (fun x => x.url == u) with
  | none =>
    rw [hf] at he
    right
    refine ⟨?_, he⟩
    have := List.find?_eq_none.mp hf e he
    simpa using this
  | some fe =>
    rw [hf] at he
    simp only at he
    obtain ⟨y, hy, rfl⟩ := List.mem_map.mp he
    by_cases hyu : y.url == u
    · rw [if_pos hyu]
      exact Or.inl rfl
    · rw [if_neg hyu]
      rcases List.mem_cons.mp hy with rfl | hyerase
      · exfalso
        have := List.find?_some hf
        simp only [beq_iff_eq] at this hyu
        exact hyu this
      · right
        exact ⟨by simpa using hyu, List.mem_of_mem_eraseP hyerase⟩

lemma clearSynced_all_clean (urls : List String) (c : LRUCache) (now : Nat)
    (h : ∀ e ∈ c.entries, e.dirty = false ∨ e.url ∈ urls) :
    ∀ e ∈ (clearSynced c urls now).entries, e.dirty = false := by
  induction urls generalizing c with
  | nil =>
    intro e he
    rcases h e (by simpa [clearSynced] using he) with hd | hmem
    · exact hd
    · simp at hmem
  | cons u rest ih =>
    have hstep : clearSynced c (u :: rest) now
        = clearSynced (clearStep c u now) rest now := by
      simp [clearSynced]
    rw [hstep]
    apply ih
    intro e he
    rcases clearStep_mem c u now e he with hd | ⟨hne, hmem⟩
    · exact Or.inl hd
    · rcases h e hmem with hd | hmemu
      · exact Or.inl hd
      · rcases List.mem_cons.mp hmemu with heq | hr
        · exact absurd heq hne
        · exact Or.inr hr

/-- Claim C7: `syncToDB` writes all dirty entries in one transaction; any
failure (begin, any batched write, commit) rolls back, leaving the cache —
dirty flags included — and the database exactly as they were, so the same
batch is retried next tick; on success the batch is applied to the
database as insert-or-replace by URL and every resident entry's dirty flag
is cleared. -/
theorem syncToDB_transactional (o : SyncOracle) (c : LRUCache) (db : List DBRow) (now : Nat) :
    ((o.beginFails = true
        ∨ (List.range (c.entries.filter (fun e => e.dirty)).length).any o.execFails = true
        ∨ o.commitFails = true) →
      syncToDB o c db now = (c, db)) ∧
    (o.beginFails = false →
     (List.range (c.entries.filter (fun e => e.dirty)).length).any o.execFails = false →
     o.commitFails = false →
      (syncToDB o c db now).2
        = (c.entries.filter (fun e => e.dirty)).foldl
            (fun acc e => upsertRow acc (rowOfEntry e)) db
      ∧ ∀ e ∈ (syncToDB o c db now).1.entries, e.dirty = false) := by
  constructor
  · intro hfail
    by_cases hemp : (c.entries.filter (fun e => e.dirty)).isEmpty
    · simp [syncToDB, hemp]
    · rcases hfail with hb | ha | hc2
      · simp [syncToDB, hemp, hb]
      · simp [syncToDB, hemp, ha]
      · cases hb : o.beginFails
        · cases ha : (List.range (c.entries.filter (fun e => e.dirty)).length).any o.execFails
          · simp [syncToDB, hemp, hb, ha, hc2]
          · simp [syncToDB, hemp, hb, ha]
        · simp [syncToDB, hemp, hb]
  · intro hb ha hc2
    by_cases hemp : (c.entries.filter (fun e => e.dirty)).isEmpty
    · have hnil : c.entries.filter (fun e => e.dirty) = [] := List.isEmpty_iff.mp hemp
      constructor
      · simp [syncToDB, hemp, hnil]
      · intro e he
        have hnotin := List.filter_eq_nil.mp hnil e (by simpa [syncToDB, hemp] using he)
        simpa using hnotin
    · have hres : syncToDB o c db now
          = (clearSynced c ((c.entries.filter (fun e => e.dirty)).map (fun e => e.url)) now,
             (c.entries.filter (fun e => e.dirty)).foldl
               (fun acc e => upsertRow acc (rowOfEntry e)) db) := by
        simp [syncToDB, hemp, hb, ha, hc2]
      constructor
      · rw [hres]
      · rw [hres]
        apply clearSynced_all_clean
        intro e he
        by_cases hd : e.dirty
        · exact Or.inr (List.mem_map.mpr ⟨e, List.mem_filter.mpr ⟨he, by simpa using hd⟩, rfl⟩)
        · exact Or.inl (by simpa using hd)

/-- Witness for C7 at a concrete input: one dirty entry, a non-failing
oracle — the row lands in the database and the entry comes back clean. -/
theorem syncToDB_transactional_witness :
    (syncToDB ⟨false, fun _ => false, false⟩
        ⟨[⟨"A", "fA", "", "webp", 1, 0, 0, true, 0⟩], 10, 10, 0⟩ [] 0).2
      = (((⟨[⟨"A", "fA", "", "webp", 1, 0, 0, true, 0⟩], 10, 10, 0⟩ : LRUCache).entries.filter
            (fun e => e.dirty)).foldl (fun acc e => upsertRow acc (rowOfEntry e)) [])
    ∧ (∀ e ∈ (syncToDB ⟨false, fun _ => false, false⟩
        ⟨[⟨"A", "fA", "", "webp", 1, 0, 0, true, 0⟩], 10, 10, 0⟩ [] 0).1.entries,
        e.dirty = false)
    ∧ syncToDB ⟨true, fun _ => false, false⟩
        ⟨[⟨"A", "fA", "", "webp", 1, 0, 0, true, 0⟩], 10, 10, 0⟩ [] 0
      = (⟨[⟨"A", "fA", "", "webp", 1, 0, 0, true, 0⟩], 10, 10, 0⟩, []) :=
  ⟨((syncToDB_transactional ⟨false, fun _ => false, false⟩
      ⟨[⟨"A", "fA", "", "webp", 1, 0, 0, true, 0⟩], 10, 10, 0⟩ [] 0).2
    rfl (by decide) rfl).1,
   ((syncToDB_transactional ⟨false, fun _ => false, false⟩
      ⟨[⟨"A", "fA", "", "webp", 1, 0, 0, true, 0⟩], 10, 10, 0⟩ [] 0).2
    rfl (by decide) rfl).2,
   (syncToDB_transactional ⟨true, fun _ => false, false⟩
      ⟨[⟨"A", "fA", "", "webp", 1, 0, 0, true, 0⟩], 10, 10, 0⟩ [] 0).1 (Or.inl rfl)⟩

/-- Claim C8: a request whose upstream fetch fails (network error or
non-200 status) or whose transform fails (decode or encode error) returns
an error and leaves the state visible to later lookups — the on-disk cache
files and the in-memory cache — exactly unchanged: no entry or file is
created. -/
theorem missPath_error_leaves_state (codec : Codec) (p : ProxyParams)
    (cacheKey cachePath thumbPath : String) (cw tw : Bool) (now : Nat) (st : ProxyState) :
    (∀ fetch e,
      (handleMissPath codec fetch p cacheKey cachePath thumbPath cw tw now st).1 = .error e →
      (handleMissPath codec fetch p cacheKey cachePath thumbPath cw tw now st).2 = st) ∧
    (∀ m, ((handleMissPath codec (.netError m) p cacheKey cachePath thumbPath cw tw now st).1).isErr
      = true) ∧
    (∀ status body, status ≠ 200 →
      ((handleMissPath codec (.response status body) p cacheKey cachePath thumbPath cw tw now st).1).isErr
        = true) ∧
    (∀ body e, transform codec body p = .error e →
      (handleMissPath codec (.response 200 body) p cacheKey cachePath thumbPath cw tw now st).1
        = .error e ∧
      (handleMissPath codec (.response 200 body) p cacheKey cachePath thumbPath cw tw now st).2
        = st) := by
  refine ⟨?_, ?_, ?_, ?_⟩
  · intro fetch e herr
    cases fetch with
    | netError m => rfl
    | response status body =>
      by_cases hstat : status ≠ 200
      · simp [handleMissPath, hstat]
      · cases htr : transform codec body p with
        | error e2 => simp [handleMissPath, hstat, htr]
        | ok r =>
          exfalso
          cases cw <;> simp [handleMissPath, hstat, htr] at herr
  · intro m
    rfl
  · intro status body hstat
    simp [handleMissPath, hstat, Except.isErr]
  · intro body e htr
    constructor
    · simp [handleMissPath, htr]
    · simp [handleMissPath, htr]

/-- Witness for C8 at a concrete input: a failed upstream fetch on an
empty state returns an error and leaves the state unchanged. -/
theorem missPath_error_leaves_state_witness :
    (handleMissPath stubCodec (.netError "boom") ⟨false, false, true, 0, 0, 80, "fit"⟩
        "k" "p" "t" true true 0 ⟨[], NewLRUCache 10 10⟩).2 = ⟨[], NewLRUCache 10 10⟩ :=
  (missPath_error_leaves_state stubCodec ⟨false, false, true, 0, 0, 80, "fit"⟩
      "k" "p" "t" true true 0 ⟨[], NewLRUCache 10 10⟩).1
    (.netError "boom") ⟨502, "图片下载失败: boom"⟩ rfl
